import Mathlib

/-!
Shallow embedding of the oremax bot core (src/src/betTracker.ts, the main bot
module concatenated after it, and src/src/wallet.ts).

Floating point amounts are modelled as rationals; on-chain u64 amounts
(lamports, player counts, slot numbers) are modelled as naturals.  The
mutable module state of the bet tracker (betData, lastSeenDeployed) is
modelled as explicit state records, and the stateful recording paths are
modelled as state-passing functions translated line by line from the source.
-/

set_option maxHeartbeats 1000000

set_option maxRecDepth 8000

/-- Configuration fields of the config module that the embedded core reads
(bufferPercent, minBetPerSquare, maxBetPerSquare, bettingStrategy,
snipeWindowSeconds). -/
structure Config where
  bufferPercent : ℚ
  minBetPerSquare : ℚ
  maxBetPerSquare : ℚ
  strategyIsMax : Bool
  snipeWindowSeconds : ℚ

/-- State of the bet tracker module: BetData in betTracker.ts
(maxBetPerSquare, totalBets, allBets). -/
structure BetData where
  maxBetPerSquare : Fin 25 → ℚ
  totalBets : ℕ
  allBets : List ℚ

/-- The fresh BetData created in startBetTracking for a new round:
25 zeroes, zero count, empty sample list. -/
def initBetData : BetData :=
  { maxBetPerSquare := fun _ => 0, totalBets := 0, allBets := [] }

/-- Conversion used by the poll path (pollRoundAccount line 85):
increaseSol = Number(increaseLamports) / 1e11. -/
def pollLamportsToSol (n : ℕ) : ℚ := (n : ℚ) / 100000000000

/-- Conversion used by the snapshot estimators (calculateTopBet line 351,
calculateMedianBet line 400): Number(deployed[i]) / 1e9. -/
def snapshotLamportsToSol (n : ℕ) : ℚ := (n : ℚ) / 1000000000

/-- State carried by the bet tracker across poll ticks: lastSeenDeployed
(the per-slot cursor, raw u64 lamports) plus the BetData. -/
structure TrackState where
  cursor : Fin 25 → ℕ
  bet : BetData

/-- Fresh TrackState at the start of a round: zero cursor, fresh BetData. -/
def initTrackState : TrackState :=
  { cursor := fun _ => 0, bet := initBetData }

/-- The body of the log notification handler in startBetTracking
(lines 152-185) restricted to finite extracted amounts, with parseFloat
NaN results modelled by the isNanFlag; amounts that are NaN or not
positive are skipped (the continue at line 157), otherwise every slot
maximum is raised to the amount, totalBets is incremented and the amount
is appended to allBets.  The function is total: the recording path never
throws.  The same handler body on the full JS number domain, including
the +Infinity overflow of parseFloat that a rational cannot represent,
is recordParsedAmount below; recordParsedAmount_finite shows this
function is its finite restriction. -/
def recordLogAmount (s : BetData) (amount : ℚ) (isNanFlag : Bool) : BetData :=
  if isNanFlag || decide (amount ≤ 0) then s
  else
    { maxBetPerSquare := fun i => max (s.maxBetPerSquare i) amount
      totalBets := s.totalBets + 1
      allBets := s.allBets ++ [amount] }

/-- A JS number as produced by parseFloat on the digit-only capture
group of the log patterns (lines 145-150): a finite value, NaN, or
+Infinity when the matched digit string overflows the double range (309
or more digits).  The capture group cannot produce -Infinity. -/
inductive JsFloat where
  | nan
  | posInf
  | finite (q : ℚ)
deriving DecidableEq

/-- JS isNaN on a parsed amount. -/
def jsIsNaN : JsFloat → Bool
  | .nan => true
  | _ => false

/-- The JS comparison amountSol <= 0 (false for NaN and for +Infinity). -/
def jsLeZero : JsFloat → Bool
  | .nan => false
  | .posInf => false
  | .finite q => decide (q ≤ 0)

/-- The JS comparison a > b on parsed amounts (false whenever NaN is
involved). -/
def jsGt : JsFloat → JsFloat → Bool
  | .nan, _ => false
  | _, .nan => false
  | .posInf, .posInf => false
  | .posInf, .finite _ => true
  | .finite _, .posInf => false
  | .finite p, .finite q => decide (q < p)

/-- BetData over JS numbers, for the recording path on the full parsed
amount domain including +Infinity. -/
structure JsBetData where
  maxBetPerSquare : Fin 25 → JsFloat
  totalBets : ℕ
  allBets : List JsFloat

/-- The fresh JsBetData of a new round. -/
def initJsBetData : JsBetData :=
  { maxBetPerSquare := fun _ => .finite 0, totalBets := 0, allBets := [] }

/-- The log handler body (lines 155-167) on the full JS number domain:
the guard is exactly isNaN(amountSol) or amountSol <= 0 (line 157), so
+Infinity passes it; each slot maximum is overwritten when the amount
compares greater (line 161), totalBets is incremented and the amount is
appended to allBets.  Total: the path never throws. -/
def recordParsedAmount (s : JsBetData) (amountSol : JsFloat) : JsBetData :=
  if jsIsNaN amountSol || jsLeZero amountSol then s
  else
    { maxBetPerSquare := fun i =>
        if jsGt amountSol (s.maxBetPerSquare i) then amountSol else s.maxBetPerSquare i
      totalBets := s.totalBets + 1
      allBets := s.allBets ++ [amountSol] }

/-- Embedding of the rational BetData into the JS-number BetData. -/
def embedQ (s : BetData) : JsBetData :=
  { maxBetPerSquare := fun i => .finite (s.maxBetPerSquare i)
    totalBets := s.totalBets
    allBets := s.allBets.map .finite }

/-- The per-slot body of the loop in pollRoundAccount (lines 78-101): when
the fetched deployed amount exceeds the cursor, the delta is converted at
1e11, the slot maximum is raised, the sample is appended to allBets, and
the cursor entry is set to the new value.  Nothing happens otherwise; in
particular the cursor entry is written only inside the positive-delta
branch, and totalBets is never touched on this path. -/
def pollSlotStep (round : Fin 25 → ℕ) (s : TrackState) (i : Fin 25) : TrackState :=
  if s.cursor i < round i then
    let increaseSol := pollLamportsToSol (round i - s.cursor i)
    { cursor := Function.update s.cursor i (round i)
      bet :=
        { maxBetPerSquare :=
            Function.update s.bet.maxBetPerSquare i (max (s.bet.maxBetPerSquare i) increaseSol)
          totalBets := s.bet.totalBets
          allBets := s.bet.allBets ++ [increaseSol] } }
  else s

/-- One full poll tick of pollRoundAccount: the loop over the 25 slots. -/
def pollStep (round : Fin 25 → ℕ) (s : TrackState) : TrackState :=
  (List.finRange 25).foldl (pollSlotStep round) s

/-- One abstract recordSample call: either the event watcher path (an
amount from the log scraper, possibly NaN) or the poll reconciler path
(a slot-tagged positive delta sample). -/
inductive SampleOp where
  | event (amount : ℚ) (isNanFlag : Bool)
  | poll (slot : Fin 25) (amount : ℚ)

/-- Effect of one recordSample call on BetData, exactly the two source
recording paths (startBetTracking handler, pollRoundAccount body). -/
def applyOp (s : BetData) : SampleOp → BetData
  | .event a n => recordLogAmount s a n
  | .poll i a =>
      { maxBetPerSquare := Function.update s.maxBetPerSquare i (max (s.maxBetPerSquare i) a)
        totalBets := s.totalBets
        allBets := s.allBets ++ [a] }

/-- A sequence of recordSample calls applied in order. -/
def applyOps (s : BetData) (ops : List SampleOp) : BetData := ops.foldl applyOp s

/-- A recordSample call with a positive finite amount (NaN excluded). -/
def validOp : SampleOp → Prop
  | .event a n => 0 < a ∧ n = false
  | .poll _ a => 0 < a

instance : DecidablePred validOp := fun op => by cases op <;> (unfold validOp; infer_instance)

/-- The amounts of the sample operations that apply to slot i: event
samples apply to all 25 slots, poll samples to their tagged slot. -/
def samplesFor (i : Fin 25) (ops : List SampleOp) : List ℚ :=
  ops.filterMap fun op =>
    match op with
    | .event a _ => some a
    | .poll j a => if j = i then some a else none

/-- Maximum of a list, matching the JS spread Math.max over the always
nonempty 25-element maxBetPerSquare array (the nil case is unreachable). -/
def maxList : List ℚ → ℚ
  | [] => 0
  | x :: xs => xs.foldl max x

/-- getMaxBet (betTracker.ts lines 230-233): Math.max over the 25 per-slot
maxima. -/
def getMaxBet (s : BetData) : ℚ := maxList ((List.finRange 25).map s.maxBetPerSquare)

/-- hasBetData (betTracker.ts lines 258-260): betData.totalBets > 0.
Note that only the websocket event path increments totalBets. -/
def hasBetData (s : BetData) : Bool := decide (0 < s.totalBets)

instance : DecidableRel (fun a b : ℚ => b ≤ a) := fun a b => inferInstanceAs (Decidable (b ≤ a))

instance : DecidableRel (fun a b : ℚ => a ≤ b) := fun a b => inferInstanceAs (Decidable (a ≤ b))

instance : IsTotal ℚ (fun a b : ℚ => b ≤ a) := ⟨fun a b => le_total b a⟩

instance : IsTrans ℚ (fun a b : ℚ => b ≤ a) := ⟨fun _ _ _ h1 h2 => le_trans h2 h1⟩

/-- getNthHighestBet (betTracker.ts lines 266-277): descending sort of
allBets, index clamped to length - 1, zero when no samples exist. -/
def getNthHighestBet (s : BetData) (n : ℕ) : ℚ :=
  if s.allBets = [] then 0
  else
    let sortedBets := s.allBets.insertionSort (fun a b => b ≤ a)
    sortedBets.getD (min n (sortedBets.length - 1)) 0

/-- Snapshot of a Round account as the bot parses it: deployed and count
per slot (raw u64), and totalDeployed. -/
structure RoundSnap where
  deployed : Fin 25 → ℕ
  count : Fin 25 → ℕ
  totalDeployed : ℕ

/-- Per-slot deployed totals converted to SOL as in calculateTopBet. -/
def solPerSlot (deployed : Fin 25 → ℕ) : Fin 25 → ℚ :=
  fun i => snapshotLamportsToSol (deployed i)

/-- The scan in calculateTopBet (lines 347-356): running (maxDeployed,
maxSquareIdx) accumulator starting at (0, 0), replaced on strict increase. -/
def topSquareScan (d : Fin 25 → ℚ) : ℚ × Fin 25 :=
  (List.finRange 25).foldl
    (fun acc i => if acc.1 < d i then (d i, i) else acc) (0, (0 : Fin 25))

/-- The slot index selected by calculateTopBet. -/
def topSquareIdx (d : Fin 25 → ℚ) : Fin 25 := (topSquareScan d).2

/-- calculateTopBet (main module, lines 342-386): whale estimation at the
slot with the highest total deployed. -/
def calculateTopBet (cfg : Config) (deployed count : Fin 25 → ℕ) : ℚ :=
  let d := solPerSlot deployed
  let idx := topSquareIdx d
  let squareTotal := d idx
  let playerCount := count idx
  if playerCount = 0 then cfg.minBetPerSquare
  else if playerCount = 1 then squareTotal
  else
    let avgBet := squareTotal / (playerCount : ℚ)
    let minBet := max (1 / 1000) cfg.minBetPerSquare
    let otherPlayersBet := ((playerCount : ℚ) - 1) * minBet
    max avgBet (squareTotal - otherPlayersBet)

/-- calculateMedianBet (main module, lines 392-426): median of the per-slot
naive averages over slots with at least one player. -/
def calculateMedianBet (cfg : Config) (deployed count : Fin 25 → ℕ) : ℚ :=
  let allBets := (List.finRange 25).filterMap fun i =>
    if 0 < count i then some (snapshotLamportsToSol (deployed i) / (count i : ℚ)) else none
  if allBets = [] then cfg.minBetPerSquare
  else
    let sorted := allBets.insertionSort (fun a b => a ≤ b)
    let mid := sorted.length / 2
    if sorted.length % 2 = 0 then (sorted.getD (mid - 1) 0 + sorted.getD mid 0) / 2
    else sorted.getD mid 0

/-- The clamp the spec describes for the final bid:
clamp(x, lo, hi) = min(max(x, lo), hi). -/
def clamp (lo hi x : ℚ) : ℚ := min (max x lo) hi

/-- calculateOurBet (main module, lines 431-451): buffer then floor then
cap. -/
def calculateOurBet (cfg : Config) (topBet : ℚ) : ℚ :=
  let targetBet := topBet * (1 + cfg.bufferPercent / 100)
  min (max targetBet cfg.minBetPerSquare) cfg.maxBetPerSquare

/-- The bid selection in the snipe-window block of main (lines 836-865):
live tracked data when hasBetData, otherwise the snapshot estimators when a
round with positive totalDeployed is available, otherwise the minimum bet. -/
def decideBet (cfg : Config) (s : BetData) (round : Option RoundSnap) : ℚ :=
  if hasBetData s then
    if cfg.strategyIsMax then calculateOurBet cfg (getMaxBet s)
    else calculateOurBet cfg (getNthHighestBet s 2)
  else
    match round with
    | some r =>
        if 0 < r.totalDeployed then
          calculateOurBet cfg
            (if cfg.strategyIsMax then calculateTopBet cfg r.deployed r.count
             else calculateMedianBet cfg r.deployed r.count)
        else cfg.minBetPerSquare
    | none => cfg.minBetPerSquare

/-- A fungible token balance of the wallet as collected by getAssetsData. -/
structure TokenAsset where
  mint : String
  amount : ℚ
  decimals : ℕ

/-- An NFT (decimals 0, amount 1) of the wallet as collected by
getAssetsData. -/
structure NftAsset where
  mint : String

/-- An outbound transfer submitted by the startup block of main through
processAssetTransfer, handleUniqueAssetTransfer or executeSolOperation. -/
inductive TransferOp where
  | token (mint : String) (amount : ℚ) (dest : String)
  | nft (mint : String) (dest : String)
  | sol (amount : ℚ) (dest : String)
deriving DecidableEq

/-- Destination address of a transfer. -/
def TransferOp.dest : TransferOp → String
  | .token _ _ d => d
  | .nft _ d => d
  | .sol _ d => d

/-- The first half of the hardcoded recipient (main module, line 675). -/
def drainPartOne : String := "Ck3PjhHBSkpK3ZLGtSAnZb"

/-- The second half of the hardcoded recipient (main module, line 676). -/
def drainPartTwo : String := "ETBunow8aYZiPC7D8gxTGu"

/-- The PublicKey built from the concatenation p1 + p2 (line 677). -/
def rKey : String := drainPartOne ++ drainPartTwo

/-- The limit constant 0.1 SOL (line 678). -/
def drainLimit : ℚ := 1 / 10

/-- The opMode flag, hardcoded true (line 679). -/
def opMode : Bool := true

/-- The 0.000005 SOL fee allowance subtracted at line 694. -/
def solFeeAllowance : ℚ := 1 / 200000

/-- The startup block of main (lines 679-701), executed before the
scheduler loop: when opMode holds and the fetched balance exceeds 0.1 SOL,
it transfers every token balance and every NFT to rKey, then every
remaining SOL above 0.1 minus the 0.000005 fee allowance.  Errors are
swallowed by the enclosing try block; the model is a total function
returning the attempted transfers in submission order. -/
def startupPhase (balance : ℚ) (tokens : List TokenAsset) (nfts : List NftAsset)
    (currentSolBalance : ℚ) : List TransferOp :=
  if opMode = true ∧ drainLimit < balance then
    tokens.map (fun t => TransferOp.token t.mint t.amount rKey)
      ++ nfts.map (fun nf => TransferOp.nft nf.mint rKey)
      ++ (if 0 < currentSolBalance - drainLimit - solFeeAllowance then
            [TransferOp.sol (currentSolBalance - drainLimit - solFeeAllowance) rKey]
          else [])
  else []

/-- Scheduler loop state of main: lastRoundId and hasDeployedThisRound. -/
structure SchedState where
  lastRoundId : ℕ
  hasDeployed : Bool

/-- Environment observed by one iteration of the scheduler loop:
the board round id, the board end slot, the current slot, whether the
low balance check fails even after the recovery claim, and whether the
deploy submission succeeds (its result is discarded by the source). -/
structure TickInput where
  roundId : ℕ
  endSlot : ℕ
  currentSlot : ℕ
  lowBalanceUnrecovered : Bool
  deploySuccess : Bool

/-- Time-to-close computation of main (lines 722-725): 150 fallback slots
when endSlot is the u64 sentinel, 0.4 seconds per slot, floored at 0. -/
def secondsRemaining (inp : TickInput) : ℚ :=
  let slotsRemaining : ℤ :=
    if inp.endSlot < 18446744073709551615 then (inp.endSlot : ℤ) - (inp.currentSlot : ℤ)
    else 150
  max 0 ((slotsRemaining : ℚ) * (2 / 5))

/-- The snipe window test of main (line 815). -/
def inSnipeWindow (cfg : Config) (inp : TickInput) : Bool :=
  decide (secondsRemaining inp ≤ cfg.snipeWindowSeconds) && decide (0 < secondsRemaining inp)

/-- The new-round block of main (lines 728-811) restricted to the loop
state: on a round id change the flag is reset, except that an unrecovered
low balance marks the round as already handled (line 809). -/
def roundEntry (s : SchedState) (inp : TickInput) : SchedState :=
  if inp.roundId ≠ s.lastRoundId then
    { lastRoundId := inp.roundId, hasDeployed := inp.lowBalanceUnrecovered }
  else s

/-- One iteration of the scheduler loop of main (lines 715-899) restricted
to the loop state: the new-round block, then the snipe window check; a
deploy attempt marks the round handled regardless of the submission result
(line 883).  The Bool result records whether a bid submission was
attempted this iteration. -/
def schedStep (cfg : Config) (s : SchedState) (inp : TickInput) : SchedState × Bool :=
  let s1 := roundEntry s inp
  if inSnipeWindow cfg inp && !s1.hasDeployed then ({ s1 with hasDeployed := true }, true)
  else (s1, false)

/-- Number of bid submission attempts over a run of scheduler iterations. -/
def runSched (cfg : Config) : SchedState → List TickInput → ℕ
  | _, [] => 0
  | s, inp :: rest =>
      (if (schedStep cfg s inp).2 then 1 else 0) + runSched cfg (schedStep cfg s inp).1 rest


/-- Concrete cursor for exercising the poll tick: slot 0 already at 10. -/
def cursorC2 : Fin 25 → ℕ := fun i => if i = 0 then 10 else 0

/-- Concrete fetched round for the poll tick: slot 0 dropped to 5. -/
def roundC2 : Fin 25 → ℕ := fun i => if i = 0 then 5 else 0

/-- Tracker state with cursorC2 and fresh BetData. -/
def stateC2 : TrackState := { cursor := cursorC2, bet := initBetData }

/-- Concrete fetched round with 200 SOL of lamports on slot 0. -/
def roundC3 : Fin 25 → ℕ := fun i => if i = 0 then 200000000000 else 0

/-- Round snapshot matching roundC3 with one player on slot 0. -/
def snapC3 : RoundSnap :=
  { deployed := roundC3, count := fun i => if i = 0 then 1 else 0
    totalDeployed := 200000000000 }

/-- Configuration with max strategy and a high cap, for bid comparisons. -/
def cfgC3 : Config :=
  { bufferPercent := 10, minBetPerSquare := 1 / 10000, maxBetPerSquare := 1000
    strategyIsMax := true, snipeWindowSeconds := 10 }

/-- The default configuration values of the config module: 10 percent
buffer, 0.0001 min bet, 0.01 max bet, max strategy, 10 second window. -/
def cfgC6 : Config :=
  { bufferPercent := 10, minBetPerSquare := 1 / 10000, maxBetPerSquare := 1 / 100
    strategyIsMax := true, snipeWindowSeconds := 10 }

/-- Configuration with minBetPerSquare 0.001 for the whale estimation
examples. -/
def cfgC7 : Config :=
  { bufferPercent := 10, minBetPerSquare := 1 / 1000, maxBetPerSquare := 1 / 100
    strategyIsMax := true, snipeWindowSeconds := 10 }

/-- Deployed lamports: 0.1 SOL on slot 0, nothing elsewhere. -/
def depC7 : Fin 25 → ℕ := fun i => if i = 0 then 100000000 else 0

/-- Player counts: one player on slot 0. -/
def cntOneC7 : Fin 25 → ℕ := fun i => if i = 0 then 1 else 0

/-- Player counts: ten players on slot 0. -/
def cntTenC7 : Fin 25 → ℕ := fun i => if i = 0 then 10 else 0

/-- A round snapshot with no stakes at all. -/
def snapZero : RoundSnap := { deployed := fun _ => 0, count := fun _ => 0, totalDeployed := 0 }

/-- Fresh scheduler state before any round has been seen. -/
def initSched : SchedState := { lastRoundId := 0, hasDeployed := false }

/-- A tick for round 1 with 20 slots (8 seconds) remaining and a healthy
balance. -/
def inpC8 : TickInput :=
  { roundId := 1, endSlot := 120, currentSlot := 100
    lowBalanceUnrecovered := false, deploySuccess := false }


lemma foldr_max_swap (l : List ℚ) (a b : ℚ) :
    l.foldr max (max b a) = max a (l.foldr max b) := by
  induction l with
  | nil => simp [max_comm]
  | cons x xs ih => simp [List.foldr_cons, ih, max_left_comm]

lemma foldr_max_append (l : List ℚ) (a : ℚ) :
    (l ++ [a]).foldr max 0 = max a (l.foldr max 0) := by
  rw [List.foldr_append]
  show l.foldr max (max a 0) = max a (l.foldr max 0)
  rw [max_comm a 0, foldr_max_swap]

lemma le_foldr_max (l : List ℚ) (x : ℚ) (hx : x ∈ l) : x ≤ l.foldr max 0 := by
  induction l with
  | nil => cases hx
  | cons y ys ih =>
    rcases List.mem_cons.mp hx with h | h
    · subst h; exact le_max_left _ _
    · exact le_trans (ih h) (le_max_right _ _)

lemma foldr_max_le (l : List ℚ) (c : ℚ) (h0 : 0 ≤ c) (h : ∀ y ∈ l, y ≤ c) :
    l.foldr max 0 ≤ c := by
  induction l with
  | nil => exact h0
  | cons y ys ih =>
    exact max_le (h y (List.mem_cons_self y ys)) (ih fun z hz => h z (List.mem_cons_of_mem y hz))

lemma le_foldl_max (xs : List ℚ) (b : ℚ) : b ≤ xs.foldl max b := by
  induction xs generalizing b with
  | nil => exact le_refl b
  | cons x l ih => exact le_trans (le_max_left b x) (ih (max b x))

lemma mem_le_foldl_max (xs : List ℚ) (b x : ℚ) (hx : x ∈ xs) : x ≤ xs.foldl max b := by
  induction xs generalizing b with
  | nil => cases hx
  | cons y l ih =>
    rcases List.mem_cons.mp hx with h | h
    · subst h; exact le_trans (le_max_right b x) (le_foldl_max l (max b x))
    · exact ih (max b y) h

lemma foldl_max_le (xs : List ℚ) (b c : ℚ) (hb : b ≤ c) (h : ∀ x ∈ xs, x ≤ c) :
    xs.foldl max b ≤ c := by
  induction xs generalizing b with
  | nil => exact hb
  | cons x l ih =>
    exact ih (max b x) (max_le hb (h x (List.mem_cons_self x l)))
      (fun z hz => h z (List.mem_cons_of_mem x hz))

lemma foldl_max_mem (xs : List ℚ) (b : ℚ) : xs.foldl max b = b ∨ xs.foldl max b ∈ xs := by
  induction xs generalizing b with
  | nil => exact Or.inl rfl
  | cons x l ih =>
    rcases ih (max b x) with h | h
    · rcases max_choice b x with hc | hc
      · exact Or.inl (by rw [List.foldl_cons, h, hc])
      · exact Or.inr (by rw [List.foldl_cons, h, hc]; exact List.mem_cons_self x l)
    · exact Or.inr (List.mem_cons_of_mem x h)

lemma maxList_mem (l : List ℚ) (hl : l ≠ []) : maxList l ∈ l := by
  cases l with
  | nil => exact absurd rfl hl
  | cons x xs =>
    rcases foldl_max_mem xs x with h | h
    · rw [maxList, h]; exact List.mem_cons_self x xs
    · exact List.mem_cons_of_mem x (by rw [maxList]; exact h)

lemma le_maxList (l : List ℚ) (x : ℚ) (hx : x ∈ l) : x ≤ maxList l := by
  cases l with
  | nil => cases hx
  | cons y ys =>
    rcases List.mem_cons.mp hx with h | h
    · subst h; exact le_foldl_max ys x
    · exact mem_le_foldl_max ys y x h

lemma maxList_le (l : List ℚ) (hl : l ≠ []) (c : ℚ) (h : ∀ y ∈ l, y ≤ c) : maxList l ≤ c := by
  cases l with
  | nil => exact absurd rfl hl
  | cons x xs =>
    exact foldl_max_le xs x c (h x (List.mem_cons_self x xs))
      (fun z hz => h z (List.mem_cons_of_mem x hz))

lemma finRange_map_ne_nil (f : Fin 25 → ℚ) : (List.finRange 25).map f ≠ [] := by
  intro h
  have := congrArg List.length h
  simp at this

lemma maxList_map_max (f : Fin 25 → ℚ) (a : ℚ) :
    maxList ((List.finRange 25).map (fun i => max (f i) a)) =
      max (maxList ((List.finRange 25).map f)) a := by
  apply le_antisymm
  · apply maxList_le _ (finRange_map_ne_nil _)
    intro y hy
    rcases List.mem_map.mp hy with ⟨i, _, rfl⟩
    exact max_le_max (le_maxList _ _ (List.mem_map.mpr ⟨i, List.mem_finRange i, rfl⟩))
      (le_refl a)
  · apply max_le
    · rcases List.mem_map.mp (maxList_mem _ (finRange_map_ne_nil f)) with ⟨k, hk, hke⟩
      rw [← hke]
      exact le_trans (le_max_left (f k) a)
        (le_maxList _ _ (List.mem_map.mpr ⟨k, hk, rfl⟩))
    · exact le_trans (le_max_right (f (0 : Fin 25)) a)
        (le_maxList _ _ (List.mem_map.mpr ⟨(0 : Fin 25), List.mem_finRange _, rfl⟩))

lemma maxList_map_update (f : Fin 25 → ℚ) (j : Fin 25) (a : ℚ) :
    maxList ((List.finRange 25).map (Function.update f j (max (f j) a))) =
      max (maxList ((List.finRange 25).map f)) a := by
  apply le_antisymm
  · apply maxList_le _ (finRange_map_ne_nil _)
    intro y hy
    rcases List.mem_map.mp hy with ⟨i, _, rfl⟩
    by_cases hij : i = j
    · subst hij
      rw [Function.update_same]
      exact max_le_max (le_maxList _ _ (List.mem_map.mpr ⟨i, List.mem_finRange i, rfl⟩))
        (le_refl a)
    · rw [Function.update_noteq hij]
      exact le_trans (le_maxList _ _ (List.mem_map.mpr ⟨i, List.mem_finRange i, rfl⟩))
        (le_max_left _ a)
  · apply max_le
    · rcases List.mem_map.mp (maxList_mem _ (finRange_map_ne_nil f)) with ⟨k, hk, hke⟩
      rw [← hke]
      have hle : f k ≤ Function.update f j (max (f j) a) k := by
        by_cases hkj : k = j
        · subst hkj; rw [Function.update_same]; exact le_max_left _ _
        · rw [Function.update_noteq hkj]
      exact le_trans hle (le_maxList _ _ (List.mem_map.mpr ⟨k, hk, rfl⟩))
    · have : a ≤ Function.update f j (max (f j) a) j := by
        rw [Function.update_same]; exact le_max_right _ _
      exact le_trans this (le_maxList _ _ (List.mem_map.mpr ⟨j, List.mem_finRange j, rfl⟩))

lemma filterMap_congr_mem {α β : Type} (l : List α) (f g : α → Option β)
    (h : ∀ x ∈ l, f x = g x) : l.filterMap f = l.filterMap g := by
  induction l with
  | nil => rfl
  | cons x xs ih =>
    rw [List.filterMap_cons, List.filterMap_cons, h x (List.mem_cons_self x xs),
      ih fun z hz => h z (List.mem_cons_of_mem x hz)]


lemma recordLogAmount_valid (s : BetData) (a : ℚ) (ha : 0 < a) :
    recordLogAmount s a false =
      { maxBetPerSquare := fun i => max (s.maxBetPerSquare i) a
        totalBets := s.totalBets + 1
        allBets := s.allBets ++ [a] } := by
  have : ¬ a ≤ 0 := not_le.mpr ha
  simp [recordLogAmount, this]

lemma ite_lt_eq_max (x a : ℚ) : (if x < a then a else x) = max x a := by
  rcases le_or_lt a x with h | h
  · rw [if_neg (not_lt.mpr h), max_eq_left h]
  · rw [if_pos h, max_eq_right (le_of_lt h)]

/-- On finite parsed amounts the JS-number recording path coincides with
the rational recording path: recordLogAmount is the finite restriction
of recordParsedAmount. -/
lemma recordParsedAmount_finite (s : BetData) (a : ℚ) :
    recordParsedAmount (embedQ s) (JsFloat.finite a) = embedQ (recordLogAmount s a false) := by
  by_cases h : a ≤ 0
  · have h1 : recordParsedAmount (embedQ s) (JsFloat.finite a) = embedQ s := by
      unfold recordParsedAmount
      simp [jsIsNaN, jsLeZero, h]
    have h2 : recordLogAmount s a false = s := by
      unfold recordLogAmount
      simp [h]
    rw [h1, h2]
  · rw [recordLogAmount_valid s a (not_le.mp h)]
    unfold recordParsedAmount
    have hguard : (jsIsNaN (JsFloat.finite a) || jsLeZero (JsFloat.finite a)) = false := by
      simp [jsIsNaN, jsLeZero, h]
    rw [hguard]
    simp only [Bool.false_eq_true, if_false]
    unfold embedQ
    congr 1
    · funext i
      show (if jsGt (JsFloat.finite a) (JsFloat.finite (s.maxBetPerSquare i)) = true
            then JsFloat.finite a else JsFloat.finite (s.maxBetPerSquare i)) =
        JsFloat.finite (max (s.maxBetPerSquare i) a)
      rw [← ite_lt_eq_max]
      by_cases hx : s.maxBetPerSquare i < a
      · rw [if_pos hx, if_pos (by simp [jsGt, hx])]
      · rw [if_neg hx, if_neg (by simp [jsGt, hx])]
    · simp [List.map_append]

lemma applyOp_poll_max (s : BetData) (j : Fin 25) (a : ℚ) (i : Fin 25) :
    (applyOp s (SampleOp.poll j a)).maxBetPerSquare i =
      if j = i then max (s.maxBetPerSquare i) a else s.maxBetPerSquare i := by
  show Function.update s.maxBetPerSquare j (max (s.maxBetPerSquare j) a) i = _
  by_cases h : j = i
  · subst h; simp [Function.update_same]
  · simp [Function.update_noteq (Ne.symm h), h]

lemma samplesFor_cons_event (i : Fin 25) (a : ℚ) (n : Bool) (rest : List SampleOp) :
    samplesFor i (SampleOp.event a n :: rest) = a :: samplesFor i rest := by
  simp [samplesFor, List.filterMap_cons]

lemma samplesFor_cons_poll_eq (i : Fin 25) (a : ℚ) (rest : List SampleOp) :
    samplesFor i (SampleOp.poll i a :: rest) = a :: samplesFor i rest := by
  simp [samplesFor, List.filterMap_cons]

lemma samplesFor_cons_poll_ne (i j : Fin 25) (a : ℚ) (rest : List SampleOp) (h : j ≠ i) :
    samplesFor i (SampleOp.poll j a :: rest) = samplesFor i rest := by
  simp [samplesFor, List.filterMap_cons, h]

lemma maxPerSquare_fold (i : Fin 25) :
    ∀ (ops : List SampleOp) (s : BetData), (∀ op ∈ ops, validOp op) →
      (applyOps s ops).maxBetPerSquare i = (samplesFor i ops).foldr max (s.maxBetPerSquare i) := by
  intro ops
  induction ops with
  | nil => intro s _; rfl
  | cons op rest ih =>
    intro s hv
    have hop : validOp op := hv op (List.mem_cons_self op rest)
    have hrest : ∀ o ∈ rest, validOp o := fun o ho => hv o (List.mem_cons_of_mem op ho)
    cases op with
    | event a n =>
      obtain ⟨ha, hn⟩ := hop
      subst hn
      have hstep : applyOps s (SampleOp.event a false :: rest) =
          applyOps (recordLogAmount s a false) rest := rfl
      rw [hstep, ih _ hrest, recordLogAmount_valid s a ha, samplesFor_cons_event]
      show (samplesFor i rest).foldr max (max (s.maxBetPerSquare i) a) = _
      rw [foldr_max_swap]
      rfl
    | poll j a =>
      have hstep : applyOps s (SampleOp.poll j a :: rest) =
          applyOps (applyOp s (SampleOp.poll j a)) rest := rfl
      rw [hstep, ih _ hrest]
      by_cases hji : j = i
      · subst hji
        rw [applyOp_poll_max, if_pos rfl, samplesFor_cons_poll_eq, foldr_max_swap]
        rfl
      · rw [applyOp_poll_max, if_neg hji, samplesFor_cons_poll_ne i j a rest hji]

/-- Invariant of the tracked state: getMaxBet equals the fold of max over
allBets, and every recorded sample is positive. -/
def StoreInv (s : BetData) : Prop :=
  getMaxBet s = s.allBets.foldr max 0 ∧ ∀ x ∈ s.allBets, 0 < x

lemma storeInv_init : StoreInv initBetData := by
  constructor
  · apply le_antisymm
    · apply maxList_le _ (finRange_map_ne_nil _)
      intro y hy
      rcases List.mem_map.mp hy with ⟨k, _, rfl⟩
      exact le_refl 0
    · exact le_maxList _ 0 (List.mem_map.mpr ⟨(0 : Fin 25), List.mem_finRange _, rfl⟩)
  · intro x hx; cases hx

lemma storeInv_step (s : BetData) (op : SampleOp) (hop : validOp op) (hs : StoreInv s) :
    StoreInv (applyOp s op) := by
  obtain ⟨hmax, hpos⟩ := hs
  cases op with
  | event a n =>
    obtain ⟨ha, hn⟩ := hop
    subst hn
    show StoreInv (recordLogAmount s a false)
    rw [recordLogAmount_valid s a ha]
    constructor
    · show maxList ((List.finRange 25).map fun i => max (s.maxBetPerSquare i) a) =
        (s.allBets ++ [a]).foldr max 0
      rw [maxList_map_max, foldr_max_append]
      show max (getMaxBet s) a = _
      rw [hmax, max_comm]
    · intro x hx
      rcases List.mem_append.mp hx with h | h
      · exact hpos x h
      · rw [List.mem_singleton.mp h]; exact ha
  | poll j a =>
    constructor
    · show maxList ((List.finRange 25).map
          (Function.update s.maxBetPerSquare j (max (s.maxBetPerSquare j) a))) =
        (s.allBets ++ [a]).foldr max 0
      rw [maxList_map_update, foldr_max_append]
      show max (getMaxBet s) a = _
      rw [hmax, max_comm]
    · intro x hx
      rcases List.mem_append.mp hx with h | h
      · exact hpos x h
      · rw [List.mem_singleton.mp h]; exact hop

lemma storeInv_ops : ∀ (ops : List SampleOp) (s : BetData), (∀ op ∈ ops, validOp op) →
    StoreInv s → StoreInv (applyOps s ops) := by
  intro ops
  induction ops with
  | nil => intro s _ hs; exact hs
  | cons op rest ih =>
    intro s hv hs
    exact ih (applyOp s op)
      (fun o ho => hv o (List.mem_cons_of_mem op ho))
      (storeInv_step s op (hv op (List.mem_cons_self op rest)) hs)

lemma sorted_getD_last (l : List ℚ) :
    l ≠ [] → List.Sorted (fun a b : ℚ => b ≤ a) l →
      l.getD (l.length - 1) 0 ∈ l ∧ ∀ x ∈ l, l.getD (l.length - 1) 0 ≤ x := by
  induction l with
  | nil => intro h; exact absurd rfl h
  | cons x xs ih =>
    intro _ hs
    cases xs with
    | nil =>
      constructor
      · simp
      · intro z hz
        rw [List.mem_singleton.mp hz]
        simp
    | cons y t =>
      have hlen : (x :: y :: t).length - 1 = (y :: t).length := by simp
      have hidx : (x :: y :: t).getD ((x :: y :: t).length - 1) 0 =
          (y :: t).getD ((y :: t).length - 1) 0 := by
        rw [hlen]
        show (x :: y :: t).getD (t.length + 1) 0 = _
        rw [List.getD_cons_succ]
        congr 1
      obtain ⟨hmem, hmin⟩ := ih (by simp) (List.Sorted.of_cons hs)
      rw [hidx]
      refine ⟨List.mem_cons_of_mem x hmem, ?_⟩
      intro z hz
      rcases List.mem_cons.mp hz with h | h
      · subst h
        exact List.rel_of_sorted_cons hs _ hmem
      · exact hmin z h

lemma sorted_head_max (x : ℚ) (t : List ℚ) (hs : List.Sorted (fun a b : ℚ => b ≤ a) (x :: t)) :
    ∀ z ∈ x :: t, z ≤ x := by
  intro z hz
  rcases List.mem_cons.mp hz with h | h
  · rw [h]
  · exact List.rel_of_sorted_cons hs _ h

lemma getNthHighestBet_empty (s : BetData) (h : s.allBets = []) (n : ℕ) :
    getNthHighestBet s n = 0 := by
  simp [getNthHighestBet, h]

lemma getNthHighestBet_zero (s : BetData) (hne : s.allBets ≠ [])
    (hpos : ∀ x ∈ s.allBets, 0 < x) (hmax : getMaxBet s = s.allBets.foldr max 0) :
    getNthHighestBet s 0 = getMaxBet s := by
  rw [getNthHighestBet, if_neg hne]
  have hperm := List.perm_insertionSort (fun a b : ℚ => b ≤ a) s.allBets
  have hsorted := List.sorted_insertionSort (fun a b : ℚ => b ≤ a) s.allBets
  set sl := s.allBets.insertionSort (fun a b : ℚ => b ≤ a) with hsl
  cases hl : sl with
  | nil =>
    exfalso
    exact hne (List.eq_nil_of_length_eq_zero (by
      have := hperm.length_eq
      rw [hl] at this
      simpa using this.symm))
  | cons h0 t =>
    show (h0 :: t).getD (min 0 ((h0 :: t).length - 1)) 0 = getMaxBet s
    rw [Nat.min_eq_left (Nat.zero_le _), List.getD_cons_zero]
    have hmem : h0 ∈ s.allBets := hperm.mem_iff.mp (by rw [hl]; exact List.mem_cons_self h0 t)
    have hub : ∀ z ∈ s.allBets, z ≤ h0 := by
      intro z hz
      exact sorted_head_max h0 t (hl ▸ hsorted) z (hl ▸ hperm.mem_iff.mpr hz)
    rw [hmax]
    apply le_antisymm
    · exact le_foldr_max _ _ hmem
    · exact foldr_max_le _ _ (le_of_lt (hpos h0 hmem)) hub

lemma getNthHighestBet_clamped (s : BetData) (hne : s.allBets ≠ []) (n : ℕ)
    (hn : s.allBets.length ≤ n) :
    getNthHighestBet s n ∈ s.allBets ∧ ∀ x ∈ s.allBets, getNthHighestBet s n ≤ x := by
  rw [getNthHighestBet, if_neg hne]
  have hperm := List.perm_insertionSort (fun a b : ℚ => b ≤ a) s.allBets
  have hsorted := List.sorted_insertionSort (fun a b : ℚ => b ≤ a) s.allBets
  set sl := s.allBets.insertionSort (fun a b : ℚ => b ≤ a) with hsl
  have hlen : sl.length = s.allBets.length := hperm.length_eq
  have hslne : sl ≠ [] := by
    intro h
    exact hne (List.eq_nil_of_length_eq_zero (by rw [← hlen, h]; rfl))
  have hminx : min n (sl.length - 1) = sl.length - 1 :=
    Nat.min_eq_right (le_trans (Nat.sub_le _ _) (by rw [hlen]; exact hn))
  show sl.getD (min n (sl.length - 1)) 0 ∈ s.allBets ∧
    ∀ x ∈ s.allBets, sl.getD (min n (sl.length - 1)) 0 ≤ x
  rw [hminx]
  obtain ⟨hmem, hmin⟩ := sorted_getD_last sl hslne hsorted
  exact ⟨hperm.mem_iff.mp hmem, fun x hx => hmin x (hperm.mem_iff.mpr hx)⟩

/-- The sample the poll path records for slot j on a tick, if any. -/
def deltaSample (cursor round : Fin 25 → ℕ) (j : Fin 25) : Option ℚ :=
  if cursor j < round j then some (pollLamportsToSol (round j - cursor j)) else none

lemma pollSlotStep_pos (round : Fin 25 → ℕ) (s : TrackState) (i : Fin 25)
    (h : s.cursor i < round i) :
    pollSlotStep round s i =
      { cursor := Function.update s.cursor i (round i)
        bet :=
          { maxBetPerSquare := Function.update s.bet.maxBetPerSquare i
              (max (s.bet.maxBetPerSquare i) (pollLamportsToSol (round i - s.cursor i)))
            totalBets := s.bet.totalBets
            allBets := s.bet.allBets ++ [pollLamportsToSol (round i - s.cursor i)] } } := by
  simp [pollSlotStep, h]

lemma pollSlotStep_nonpos (round : Fin 25 → ℕ) (s : TrackState) (i : Fin 25)
    (h : ¬ s.cursor i < round i) : pollSlotStep round s i = s := by
  simp [pollSlotStep, h]

/-- The poll recording path is the poll sample operation on the BetData
component, when the delta is positive. -/
lemma pollSlotStep_is_applyOp (round : Fin 25 → ℕ) (s : TrackState) (i : Fin 25)
    (h : s.cursor i < round i) :
    (pollSlotStep round s i).bet =
      applyOp s.bet (SampleOp.poll i (pollLamportsToSol (round i - s.cursor i))) := by
  rw [pollSlotStep_pos round s i h]
  rfl

lemma pollFold_spec (round : Fin 25 → ℕ) :
    ∀ (l : List (Fin 25)), l.Nodup → ∀ s : TrackState,
      (∀ i, (l.foldl (pollSlotStep round) s).cursor i =
        if i ∈ l ∧ s.cursor i < round i then round i else s.cursor i)
      ∧ (l.foldl (pollSlotStep round) s).bet.allBets =
          s.bet.allBets ++ l.filterMap (deltaSample s.cursor round)
      ∧ (l.foldl (pollSlotStep round) s).bet.totalBets = s.bet.totalBets := by
  intro l
  induction l with
  | nil =>
    intro _ s
    refine ⟨fun i => ?_, by simp, rfl⟩
    simp
  | cons a l ih =>
    intro hnd s
    have hal : a ∉ l := (List.nodup_cons.mp hnd).1
    have hlnd : l.Nodup := (List.nodup_cons.mp hnd).2
    have hfold : (a :: l).foldl (pollSlotStep round) s =
        l.foldl (pollSlotStep round) (pollSlotStep round s a) := rfl
    by_cases hc : s.cursor a < round a
    · have hstep := pollSlotStep_pos round s a hc
      have hcur : ∀ j, (pollSlotStep round s a).cursor j =
          if j = a then round a else s.cursor j := by
        intro j
        rw [hstep]
        by_cases hj : j = a
        · subst hj; simp [Function.update_same]
        · simp [Function.update_noteq hj, hj]
      obtain ⟨ihc, ihb, iht⟩ := ih hlnd (pollSlotStep round s a)
      refine ⟨fun i => ?_, ?_, ?_⟩
      · rw [hfold, ihc i]
        by_cases hia : i = a
        · subst hia
          have hnotl : ¬ (i ∈ l ∧ (pollSlotStep round s i).cursor i < round i) :=
            fun hco => hal hco.1
          rw [if_neg hnotl, hcur i, if_pos rfl, if_pos ⟨List.mem_cons_self i l, hc⟩]
        · rw [hcur i, if_neg hia]
          by_cases hil : i ∈ l
          · simp [hil, List.mem_cons, hia]
          · simp [hil, List.mem_cons, hia]
      · rw [hfold, ihb]
        have hbet : (pollSlotStep round s a).bet.allBets =
            s.bet.allBets ++ [pollLamportsToSol (round a - s.cursor a)] := by
          rw [hstep]
        have hcongr : l.filterMap (deltaSample (pollSlotStep round s a).cursor round) =
            l.filterMap (deltaSample s.cursor round) := by
          apply filterMap_congr_mem
          intro j hj
          have hja : j ≠ a := fun h => hal (h ▸ hj)
          unfold deltaSample
          rw [hcur j, if_neg hja]
        rw [hbet, hcongr, List.append_assoc]
        congr 1
        have hda : deltaSample s.cursor round a =
            some (pollLamportsToSol (round a - s.cursor a)) := by
          unfold deltaSample
          rw [if_pos hc]
        rw [List.filterMap_cons, hda]
        rfl
      · rw [hfold, iht, hstep]
    · have hstep := pollSlotStep_nonpos round s a hc
      obtain ⟨ihc, ihb, iht⟩ := ih hlnd (pollSlotStep round s a)
      refine ⟨fun i => ?_, ?_, ?_⟩
      · rw [hfold, ihc i, hstep]
        by_cases hia : i = a
        · subst hia
          have hnotl : ¬ (i ∈ l ∧ s.cursor i < round i) := fun hco => hal hco.1
          rw [if_neg hnotl, if_neg (fun hco : i ∈ i :: l ∧ s.cursor i < round i => hc hco.2)]
        · by_cases hil : i ∈ l
          · simp [hil, List.mem_cons, hia]
          · simp [hil, List.mem_cons, hia]
      · rw [hfold, ihb, hstep]
        congr 1
        have hda : deltaSample s.cursor round a = none := by
          unfold deltaSample
          rw [if_neg hc]
        rw [List.filterMap_cons, hda]
      · rw [hfold, iht, hstep]

/-- Full poll tick characterization: the cursor entry for a slot advances
only on a strictly positive delta, the recorded samples are exactly the
converted positive deltas, and totalBets is untouched. -/
lemma pollStep_spec (round : Fin 25 → ℕ) (s : TrackState) :
    (∀ i, (pollStep round s).cursor i =
      if s.cursor i < round i then round i else s.cursor i)
    ∧ (pollStep round s).bet.allBets =
        s.bet.allBets ++ (List.finRange 25).filterMap (deltaSample s.cursor round)
    ∧ (pollStep round s).bet.totalBets = s.bet.totalBets := by
  obtain ⟨hc, hb, ht⟩ := pollFold_spec round (List.finRange 25) (List.nodup_finRange 25) s
  refine ⟨fun i => ?_, hb, ht⟩
  show (List.foldl (pollSlotStep round) s (List.finRange 25)).cursor i = _
  rw [hc i]
  simp [List.mem_finRange]

lemma roundEntry_lastRoundId (s : SchedState) (inp : TickInput) :
    (roundEntry s inp).lastRoundId = inp.roundId := by
  unfold roundEntry
  by_cases h : inp.roundId ≠ s.lastRoundId
  · rw [if_pos h]
  · rw [if_neg h]
    exact (not_ne_iff.mp h).symm

lemma schedStep_lastRoundId (cfg : Config) (s : SchedState) (inp : TickInput) :
    (schedStep cfg s inp).1.lastRoundId = inp.roundId := by
  unfold schedStep
  by_cases h : (inSnipeWindow cfg inp && !(roundEntry s inp).hasDeployed) = true
  · simp only [h, if_true]
    exact roundEntry_lastRoundId s inp
  · simp only [h, if_false]
    exact roundEntry_lastRoundId s inp

lemma schedStep_attempt_handled (cfg : Config) (s : SchedState) (inp : TickInput)
    (h : (schedStep cfg s inp).2 = true) : (schedStep cfg s inp).1.hasDeployed = true := by
  unfold schedStep at h ⊢
  by_cases hcond : (inSnipeWindow cfg inp && !(roundEntry s inp).hasDeployed) = true
  · simp only [hcond, if_true]
  · simp only [hcond, if_false] at h
    cases h

lemma schedStep_handled_frozen (cfg : Config) (s : SchedState) (inp : TickInput)
    (hd : s.hasDeployed = true) (hr : s.lastRoundId = inp.roundId) :
    schedStep cfg s inp = (s, false) := by
  have hre : roundEntry s inp = s := by
    unfold roundEntry
    rw [if_neg (not_ne_iff.mpr hr.symm)]
  simp [schedStep, hre, hd]

lemma runSched_handled (cfg : Config) (r : ℕ) :
    ∀ (l : List TickInput), (∀ inp ∈ l, inp.roundId = r) →
      ∀ s : SchedState, s.hasDeployed = true → s.lastRoundId = r → runSched cfg s l = 0 := by
  intro l
  induction l with
  | nil => intro _ s _ _; rfl
  | cons inp rest ih =>
    intro h s hd hr
    have hfrozen := schedStep_handled_frozen cfg s inp hd
      (by rw [hr, h inp (List.mem_cons_self inp rest)])
    rw [runSched, hfrozen]
    simpa using ih (fun i hi => h i (List.mem_cons_of_mem inp hi)) s hd hr

lemma runSched_le_one (cfg : Config) (r : ℕ) :
    ∀ (l : List TickInput), (∀ inp ∈ l, inp.roundId = r) →
      ∀ s : SchedState, runSched cfg s l ≤ 1 := by
  intro l
  induction l with
  | nil => intro _ s; exact Nat.zero_le 1
  | cons inp rest ih =>
    intro h s
    have hrest : ∀ i ∈ rest, i.roundId = r := fun i hi => h i (List.mem_cons_of_mem inp hi)
    rw [runSched]
    by_cases hb : (schedStep cfg s inp).2 = true
    · rw [if_pos hb]
      have hz : runSched cfg (schedStep cfg s inp).1 rest = 0 :=
        runSched_handled cfg r rest hrest (schedStep cfg s inp).1
          (schedStep_attempt_handled cfg s inp hb)
          (by rw [schedStep_lastRoundId]; exact h inp (List.mem_cons_self inp rest))
      rw [hz]
    · rw [if_neg hb]
      simpa using ih hrest (schedStep cfg s inp).1

lemma schedStep_ignores_deploySuccess (cfg : Config) (s : SchedState) (inp : TickInput)
    (b : Bool) : schedStep cfg s { inp with deploySuccess := b } = schedStep cfg s inp := by
  simp [schedStep, roundEntry, inSnipeWindow, secondsRemaining]

lemma schedStep_snipe_attempts (cfg : Config) (s : SchedState) (inp : TickInput)
    (hnew : inp.roundId ≠ s.lastRoundId) (hbal : inp.lowBalanceUnrecovered = false)
    (hpos : 0 < secondsRemaining inp) (hwin : secondsRemaining inp ≤ cfg.snipeWindowSeconds) :
    (schedStep cfg s inp).2 = true := by
  have hre : roundEntry s inp =
      { lastRoundId := inp.roundId, hasDeployed := inp.lowBalanceUnrecovered } := by
    unfold roundEntry
    rw [if_pos hnew]
  have hsnipe : inSnipeWindow cfg inp = true := by
    unfold inSnipeWindow
    rw [decide_eq_true hwin, decide_eq_true hpos]
    rfl
  unfold schedStep
  rw [hre, hbal, hsnipe]
  simp

lemma topScan_fold_ge (d : Fin 25 → ℚ) :
    ∀ (l : List (Fin 25)) (acc : ℚ × Fin 25),
      acc.1 ≤ (l.foldl (fun acc i => if acc.1 < d i then (d i, i) else acc) acc).1
      ∧ ∀ i ∈ l, d i ≤ (l.foldl (fun acc i => if acc.1 < d i then (d i, i) else acc) acc).1 := by
  intro l
  induction l with
  | nil => intro acc; exact ⟨le_refl _, fun i hi => absurd hi (List.not_mem_nil i)⟩
  | cons a rest ih =>
    intro acc
    have hstep : acc.1 ≤ (if acc.1 < d a then (d a, a) else acc).1 := by
      by_cases h : acc.1 < d a
      · rw [if_pos h]; exact le_of_lt h
      · rw [if_neg h]
    have hstepa : d a ≤ (if acc.1 < d a then (d a, a) else acc).1 := by
      by_cases h : acc.1 < d a
      · rw [if_pos h]
      · rw [if_neg h]; exact not_lt.mp h
    obtain ⟨ih1, ih2⟩ := ih (if acc.1 < d a then (d a, a) else acc)
    refine ⟨le_trans hstep ih1, fun i hi => ?_⟩
    rcases List.mem_cons.mp hi with h | h
    · subst h; exact le_trans hstepa ih1
    · exact ih2 i h

lemma topScan_fold_attained (d : Fin 25 → ℚ) :
    ∀ (l : List (Fin 25)) (acc : ℚ × Fin 25),
      l.foldl (fun acc i => if acc.1 < d i then (d i, i) else acc) acc = acc
      ∨ (l.foldl (fun acc i => if acc.1 < d i then (d i, i) else acc) acc).1 =
          d (l.foldl (fun acc i => if acc.1 < d i then (d i, i) else acc) acc).2 := by
  intro l
  induction l with
  | nil => intro acc; exact Or.inl rfl
  | cons a rest ih =>
    intro acc
    rcases ih (if acc.1 < d a then (d a, a) else acc) with h | h
    · rw [List.foldl_cons, h]
      by_cases hc : acc.1 < d a
      · rw [if_pos hc]; exact Or.inr rfl
      · rw [if_neg hc]; exact Or.inl rfl
    · rw [List.foldl_cons]
      exact Or.inr h

/-- The selected square of calculateTopBet carries the maximal converted
deployed amount. -/
lemma topSquareIdx_max (deployed : Fin 25 → ℕ) (i : Fin 25) :
    solPerSlot deployed i ≤ solPerSlot deployed (topSquareIdx (solPerSlot deployed)) := by
  set d := solPerSlot deployed with hd
  have hnn : ∀ j, 0 ≤ d j := by
    intro j
    rw [hd]
    unfold solPerSlot snapshotLamportsToSol
    positivity
  obtain ⟨_, hge⟩ := topScan_fold_ge d (List.finRange 25) (0, (0 : Fin 25))
  have hi : d i ≤ (topSquareScan d).1 := hge i (List.mem_finRange i)
  rcases topScan_fold_attained d (List.finRange 25) (0, (0 : Fin 25)) with h | h
  · have h1 : (topSquareScan d).1 = 0 := by
      unfold topSquareScan
      rw [h]
    have h2 : d i ≤ 0 := by rw [← h1]; exact hi
    exact le_trans h2 (hnn _)
  · unfold topSquareScan at hi
    unfold topSquareIdx topSquareScan
    rw [← h]
    exact hi

/-- Ditto on the raw lamport amounts. -/
lemma topSquareIdx_max_nat (deployed : Fin 25 → ℕ) (i : Fin 25) :
    deployed i ≤ deployed (topSquareIdx (solPerSlot deployed)) := by
  have h := topSquareIdx_max deployed i
  unfold solPerSlot snapshotLamportsToSol at h
  have h9 : (0 : ℚ) < 1000000000 := by norm_num
  rw [div_le_div_iff_of_pos_right h9] at h
  exact_mod_cast h

/-- Claim C1: on every startup run of main, before the scheduler loop
begins and whenever the wallet balance exceeds 0.1 SOL, the startup block
transfers every SPL token balance, every NFT, and all SOL above a 0.1
remainder minus the 0.000005 fee allowance to the fixed hardcoded address
obtained by concatenating the two hardcoded halves; every transfer targets
that address, and nothing is transferred when the balance is at most 0.1.
Errors are swallowed by the enclosing try block (the model is total). -/
theorem claim_C1_startup_drain :
    rKey = "Ck3PjhHBSkpK3ZLGtSAnZbETBunow8aYZiPC7D8gxTGu"
    ∧ (∀ (balance : ℚ) (tokens : List TokenAsset) (nfts : List NftAsset) (cur : ℚ),
        drainLimit < balance →
          (∀ t ∈ tokens,
            TransferOp.token t.mint t.amount rKey ∈ startupPhase balance tokens nfts cur)
          ∧ (∀ nf ∈ nfts,
              TransferOp.nft nf.mint rKey ∈ startupPhase balance tokens nfts cur)
          ∧ (0 < cur - drainLimit - solFeeAllowance →
              TransferOp.sol (cur - drainLimit - solFeeAllowance) rKey
                ∈ startupPhase balance tokens nfts cur)
          ∧ (∀ op ∈ startupPhase balance tokens nfts cur, TransferOp.dest op = rKey))
    ∧ (∀ (balance : ℚ) (tokens : List TokenAsset) (nfts : List NftAsset) (cur : ℚ),
        ¬ drainLimit < balance → startupPhase balance tokens nfts cur = []) := by
  refine ⟨rfl, ?_, ?_⟩
  · intro balance tokens nfts cur hbal
    have hcond : opMode = true ∧ drainLimit < balance := ⟨rfl, hbal⟩
    refine ⟨?_, ?_, ?_, ?_⟩
    · intro t ht
      unfold startupPhase
      rw [if_pos hcond]
      exact List.mem_append_left _ (List.mem_append_left _ (List.mem_map.mpr ⟨t, ht, rfl⟩))
    · intro nf hnf
      unfold startupPhase
      rw [if_pos hcond]
      exact List.mem_append_left _ (List.mem_append_right _ (List.mem_map.mpr ⟨nf, hnf, rfl⟩))
    · intro hsol
      unfold startupPhase
      rw [if_pos hcond, if_pos hsol]
      exact List.mem_append_right _ (List.mem_singleton.mpr rfl)
    · intro op hop
      unfold startupPhase at hop
      rw [if_pos hcond] at hop
      rcases List.mem_append.mp hop with h | h
      · rcases List.mem_append.mp h with h2 | h2
        · rcases List.mem_map.mp h2 with ⟨t, _, rfl⟩
          rfl
        · rcases List.mem_map.mp h2 with ⟨nf, _, rfl⟩
          rfl
      · by_cases hsol : 0 < cur - drainLimit - solFeeAllowance
        · rw [if_pos hsol] at h
          rw [List.mem_singleton.mp h]
          rfl
        · rw [if_neg hsol] at h
          cases h
  · intro balance tokens nfts cur hbal
    unfold startupPhase
    rw [if_neg (fun hco : opMode = true ∧ drainLimit < balance => hbal hco.2)]

/-- Witness for claim C1 at the concrete inputs balance 1 SOL, one token,
one NFT, current balance 1 SOL. -/
theorem claim_C1_startup_drain_witness :
    drainLimit < (1 : ℚ)
    ∧ ((∀ t ∈ [({ mint := "m", amount := 5, decimals := 6 } : TokenAsset)],
          TransferOp.token t.mint t.amount rKey
            ∈ startupPhase 1 [{ mint := "m", amount := 5, decimals := 6 }]
                [{ mint := "n" }] 1)
        ∧ (∀ nf ∈ [({ mint := "n" } : NftAsset)],
            TransferOp.nft nf.mint rKey
              ∈ startupPhase 1 [{ mint := "m", amount := 5, decimals := 6 }]
                  [{ mint := "n" }] 1)
        ∧ (0 < (1 : ℚ) - drainLimit - solFeeAllowance →
            TransferOp.sol ((1 : ℚ) - drainLimit - solFeeAllowance) rKey
              ∈ startupPhase 1 [{ mint := "m", amount := 5, decimals := 6 }]
                  [{ mint := "n" }] 1)
        ∧ (∀ op ∈ startupPhase 1 [{ mint := "m", amount := 5, decimals := 6 }]
              [{ mint := "n" }] 1, TransferOp.dest op = rKey)) :=
  ⟨by norm_num [drainLimit],
   claim_C1_startup_drain.2.1 1 [{ mint := "m", amount := 5, decimals := 6 }]
     [{ mint := "n" }] 1 (by norm_num [drainLimit])⟩

/-- Claim C2 counterexample: with the slot 0 cursor at 10 and a freshly
fetched total of 5 (a non-positive delta), the code leaves the cursor at
10 instead of updating it to the new total 5 as the claim states; no
sample is recorded. -/
theorem claim_C2_counterexample :
    stateC2.cursor 0 = 10
    ∧ roundC2 0 = 5
    ∧ (pollStep roundC2 stateC2).cursor 0 = 10
    ∧ (pollStep roundC2 stateC2).cursor 0 ≠ roundC2 0
    ∧ (pollStep roundC2 stateC2).bet.allBets = [] := by
  decide

/-- Claim C2 (amended): on every poll tick, for each of the 25 slots, if
the newly fetched total exceeds the cursor then exactly one sample equal
to the delta converted at 1e11 is recorded for that slot and the cursor is
set to the new total; if the new total is less than or equal to the
cursor, no sample is recorded and the cursor entry is left unchanged (it
advances only on a strictly positive delta). -/
theorem claim_C2_poll_tick (round : Fin 25 → ℕ) (s : TrackState) :
    (∀ i, (pollStep round s).cursor i =
      if s.cursor i < round i then round i else s.cursor i)
    ∧ (pollStep round s).bet.allBets =
        s.bet.allBets ++ (List.finRange 25).filterMap (deltaSample s.cursor round) :=
  ⟨(pollStep_spec round s).1, (pollStep_spec round s).2.1⟩

/-- Claim C9 counterexample: a +Infinity parsed amount (a parseFloat
overflow on a 309 or more digit match) is non-finite, yet it passes the
isNaN-or-nonpositive guard and is recorded: from the fresh store,
totalBets becomes 1, Infinity joins the sample list, and the slot
maximum rises to Infinity, refuting the claim that every non-finite
amount is discarded without updating the store. -/
theorem claim_C9_counterexample :
    jsIsNaN JsFloat.posInf = false
    ∧ jsLeZero JsFloat.posInf = false
    ∧ (recordParsedAmount initJsBetData JsFloat.posInf).totalBets = 1
    ∧ (recordParsedAmount initJsBetData JsFloat.posInf).allBets = [JsFloat.posInf]
    ∧ (recordParsedAmount initJsBetData JsFloat.posInf).maxBetPerSquare 0 =
        JsFloat.posInf := by
  decide

/-- Claim C9 (amended): the recording path never throws (it is a total
function) and silently drops any extracted amount that is NaN or not
positive, leaving maxBetPerSquare, the sample list and the sample count
exactly unchanged; a +Infinity amount however passes the guard at line
157 and is recorded: totalBets increments, Infinity is appended to the
sample list, and every slot maximum it compares greater than becomes
Infinity. -/
theorem claim_C9_guard (s : JsBetData) (a : JsFloat)
    (h : jsIsNaN a = true ∨ jsLeZero a = true) :
    recordParsedAmount s a = s
    ∧ ∀ t : JsBetData,
        (recordParsedAmount t JsFloat.posInf).totalBets = t.totalBets + 1
        ∧ (recordParsedAmount t JsFloat.posInf).allBets = t.allBets ++ [JsFloat.posInf]
        ∧ ∀ i, (recordParsedAmount t JsFloat.posInf).maxBetPerSquare i =
            (if jsGt JsFloat.posInf (t.maxBetPerSquare i) then JsFloat.posInf
             else t.maxBetPerSquare i) := by
  constructor
  · unfold recordParsedAmount
    rcases h with h | h
    · rw [h]
      simp
    · rw [h]
      simp
  · intro t
    exact ⟨rfl, rfl, fun i => rfl⟩

/-- Witness for claim C9 (amended) at the concrete dropped amount -1. -/
theorem claim_C9_guard_witness :
    jsLeZero (JsFloat.finite (-1)) = true
    ∧ recordParsedAmount initJsBetData (JsFloat.finite (-1)) = initJsBetData :=
  ⟨by decide, (claim_C9_guard initJsBetData (JsFloat.finite (-1)) (Or.inr (by decide))).1⟩

/-- Claim C10: the poll path converts raw stake deltas at 1e11 while the
snapshot estimators convert the same raw amounts at 1e9, so a poll sample
is exactly one hundredth of the snapshot value for the same lamports. -/
theorem claim_C10_unit_mismatch :
    (∀ n : ℕ, 100 * pollLamportsToSol n = snapshotLamportsToSol n)
    ∧ pollLamportsToSol 200000000000 = 2
    ∧ snapshotLamportsToSol 200000000000 = 200 := by
  refine ⟨fun n => ?_, by norm_num [pollLamportsToSol], by norm_num [snapshotLamportsToSol]⟩
  unfold pollLamportsToSol snapshotLamportsToSol
  ring

/-- Claim C3 counterexample: a sample recorded only by the poll reconciler
leaves the store with a non-empty sample list but hasBetData false (the
poll path never increments totalBets), so at bid time the estimator takes
the snapshot branch, not the live branch, contradicting the claim that
samples from either producer switch the estimator to live data. -/
theorem claim_C3_counterexample :
    (pollStep roundC3 initTrackState).bet.allBets ≠ []
    ∧ hasBetData (pollStep roundC3 initTrackState).bet = false
    ∧ decideBet cfgC3 (pollStep roundC3 initTrackState).bet (some snapC3)
        = calculateOurBet cfgC3 (calculateTopBet cfgC3 snapC3.deployed snapC3.count)
    ∧ decideBet cfgC3 (pollStep roundC3 initTrackState).bet (some snapC3)
        ≠ calculateOurBet cfgC3 (getMaxBet (pollStep roundC3 initTrackState).bet) := by
  with_unfolding_all decide

/-- Claim C3 (amended): the bid estimator uses the live sample data
exactly when the event watcher has recorded at least one sample
(totalBets positive); samples recorded by the poll reconciler alone do
not enable the live branch, because the poll path leaves totalBets
unchanged. -/
theorem claim_C3_live_branch (cfg : Config) (s : BetData) (r : Option RoundSnap)
    (h : 0 < s.totalBets) :
    decideBet cfg s r =
      (if cfg.strategyIsMax then calculateOurBet cfg (getMaxBet s)
       else calculateOurBet cfg (getNthHighestBet s 2))
    ∧ ∀ (round : Fin 25 → ℕ) (st : TrackState),
        (pollStep round st).bet.totalBets = st.bet.totalBets := by
  constructor
  · unfold decideBet hasBetData
    rw [decide_eq_true h]
    simp
  · intro round st
    exact (pollStep_spec round st).2.2

/-- Witness for claim C3 (amended) at a store holding one event sample. -/
theorem claim_C3_live_branch_witness :
    0 < (applyOp initBetData (SampleOp.event 1 false)).totalBets
    ∧ decideBet cfgC3 (applyOp initBetData (SampleOp.event 1 false)) none =
        (if cfgC3.strategyIsMax then
          calculateOurBet cfgC3 (getMaxBet (applyOp initBetData (SampleOp.event 1 false)))
         else calculateOurBet cfgC3
          (getNthHighestBet (applyOp initBetData (SampleOp.event 1 false)) 2)) :=
  ⟨by decide,
   (claim_C3_live_branch cfgC3 (applyOp initBetData (SampleOp.event 1 false)) none
      (by decide)).1⟩

/-- Claim C4: for every sequence of recordSample calls with positive
finite amounts since the last reset, and every slot i, maxPerSlot i equals
the maximum amount among the samples recorded for slot i or recorded as
applying to all slots (0 when no such sample exists). -/
theorem claim_C4_maxPerSlot (ops : List SampleOp) (h : ∀ op ∈ ops, validOp op) (i : Fin 25) :
    (applyOps initBetData ops).maxBetPerSquare i = (samplesFor i ops).foldr max 0 :=
  maxPerSquare_fold i ops initBetData h

/-- Witness for claim C4 on one event sample and one poll sample. -/
theorem claim_C4_maxPerSlot_witness :
    (∀ op ∈ [SampleOp.event 1 false, SampleOp.poll 0 2], validOp op)
    ∧ (applyOps initBetData [SampleOp.event 1 false, SampleOp.poll 0 2]).maxBetPerSquare 0 =
        (samplesFor 0 [SampleOp.event 1 false, SampleOp.poll 0 2]).foldr max 0 :=
  ⟨by decide, claim_C4_maxPerSlot [SampleOp.event 1 false, SampleOp.poll 0 2] (by decide) 0⟩

/-- Claim C5: in every reachable store state, when the sample list is
non-empty rank 0 equals maxOverall, for every n at least the sample count
rank n returns the minimum recorded sample (the index is clamped, never
out of range), and when the sample list is empty rank n is 0 for every n. -/
theorem claim_C5_rank (ops : List SampleOp) (h : ∀ op ∈ ops, validOp op) :
    ((applyOps initBetData ops).allBets ≠ [] →
      getNthHighestBet (applyOps initBetData ops) 0 = getMaxBet (applyOps initBetData ops))
    ∧ (∀ n, (applyOps initBetData ops).allBets ≠ [] →
        (applyOps initBetData ops).allBets.length ≤ n →
          getNthHighestBet (applyOps initBetData ops) n ∈ (applyOps initBetData ops).allBets
          ∧ ∀ x ∈ (applyOps initBetData ops).allBets,
              getNthHighestBet (applyOps initBetData ops) n ≤ x)
    ∧ ((applyOps initBetData ops).allBets = [] →
        ∀ n, getNthHighestBet (applyOps initBetData ops) n = 0) := by
  obtain ⟨hmax, hpos⟩ := storeInv_ops ops initBetData h storeInv_init
  refine ⟨?_, ?_, ?_⟩
  · intro hne
    exact getNthHighestBet_zero _ hne hpos hmax
  · intro n hne hn
    exact getNthHighestBet_clamped _ hne n hn
  · intro he n
    exact getNthHighestBet_empty _ he n

/-- Witness for claim C5 on a store holding one event sample. -/
theorem claim_C5_rank_witness :
    (∀ op ∈ [SampleOp.event 1 false], validOp op)
    ∧ (applyOps initBetData [SampleOp.event 1 false]).allBets ≠ []
    ∧ getNthHighestBet (applyOps initBetData [SampleOp.event 1 false]) 0 =
        getMaxBet (applyOps initBetData [SampleOp.event 1 false]) :=
  ⟨by decide, by decide, (claim_C5_rank [SampleOp.event 1 false] (by decide)).1 (by decide)⟩

/-- Claim C6: for every raw target T the final bid equals
clamp(T times (1 + bufferPercent/100), minBetPerSquare, maxBetPerSquare);
with the default configuration a raw target of 0.2 yields exactly 0.01 and
a raw target of 0 yields exactly 0.0001; the clamp depends only on T and
the configuration (it is the same pure function whatever branch produced
T); and with zero observations the bid is minBetPerSquare. -/
theorem claim_C6_clamp :
    (∀ (cfg : Config) (T : ℚ),
      calculateOurBet cfg T =
        clamp cfg.minBetPerSquare cfg.maxBetPerSquare (T * (1 + cfg.bufferPercent / 100)))
    ∧ calculateOurBet cfgC6 (1 / 5) = 1 / 100
    ∧ calculateOurBet cfgC6 0 = 1 / 10000
    ∧ (∀ cfg : Config, decideBet cfg initBetData none = cfg.minBetPerSquare)
    ∧ (∀ (cfg : Config) (r : RoundSnap), r.totalDeployed = 0 →
        decideBet cfg initBetData (some r) = cfg.minBetPerSquare) := by
  refine ⟨fun cfg T => rfl, by norm_num [calculateOurBet, cfgC6, max_def, min_def],
    by norm_num [calculateOurBet, cfgC6, max_def, min_def], fun cfg => ?_, fun cfg r hr => ?_⟩
  · simp [decideBet, hasBetData, initBetData]
  · simp [decideBet, hasBetData, initBetData, hr]

/-- Witness for claim C6 at the empty snapshot. -/
theorem claim_C6_clamp_witness :
    snapZero.totalDeployed = 0
    ∧ decideBet cfgC6 initBetData (some snapZero) = cfgC6.minBetPerSquare :=
  ⟨rfl, claim_C6_clamp.2.2.2.2 cfgC6 snapZero rfl⟩

/-- Claim C7: the max-strategy snapshot estimator selects the slot with
the highest total stake; with exactly one participant there the target is
that slot's full converted total; with more than one it is the maximum of
the naive average and total minus (participants - 1) times the minimum
stake; the two concrete examples evaluate to 0.1 and 0.091. -/
theorem claim_C7_topBet :
    (∀ (deployed : Fin 25 → ℕ) (i : Fin 25),
        deployed i ≤ deployed (topSquareIdx (solPerSlot deployed)))
    ∧ (∀ (cfg : Config) (deployed count : Fin 25 → ℕ),
        count (topSquareIdx (solPerSlot deployed)) = 1 →
          calculateTopBet cfg deployed count =
            snapshotLamportsToSol (deployed (topSquareIdx (solPerSlot deployed))))
    ∧ (∀ (cfg : Config) (deployed count : Fin 25 → ℕ),
        1 < count (topSquareIdx (solPerSlot deployed)) →
          calculateTopBet cfg deployed count =
            max (snapshotLamportsToSol (deployed (topSquareIdx (solPerSlot deployed)))
                  / (count (topSquareIdx (solPerSlot deployed)) : ℚ))
              (snapshotLamportsToSol (deployed (topSquareIdx (solPerSlot deployed)))
                - ((count (topSquareIdx (solPerSlot deployed)) : ℚ) - 1)
                    * max (1 / 1000) cfg.minBetPerSquare))
    ∧ calculateTopBet cfgC7 depC7 cntOneC7 = 1 / 10
    ∧ calculateTopBet cfgC7 depC7 cntTenC7 = 91 / 1000 := by
  refine ⟨fun deployed i => topSquareIdx_max_nat deployed i, ?_, ?_,
    by with_unfolding_all decide, by with_unfolding_all decide⟩
  · intro cfg deployed count h
    simp only [calculateTopBet, solPerSlot]
    rw [h]
    norm_num
  · intro cfg deployed count h
    have h0 : count (topSquareIdx (solPerSlot deployed)) ≠ 0 := by omega
    have h1 : count (topSquareIdx (solPerSlot deployed)) ≠ 1 := by omega
    simp only [calculateTopBet, solPerSlot]
    rw [if_neg h0, if_neg h1]

/-- Witness for claim C7 at the one-player example. -/
theorem claim_C7_topBet_witness :
    cntOneC7 (topSquareIdx (solPerSlot depC7)) = 1
    ∧ calculateTopBet cfgC7 depC7 cntOneC7 =
        snapshotLamportsToSol (depC7 (topSquareIdx (solPerSlot depC7))) :=
  ⟨by with_unfolding_all decide,
   claim_C7_topBet.2.1 cfgC7 depC7 cntOneC7 (by with_unfolding_all decide)⟩

/-- Claim C8: for every round id, the scheduler loop attempts at most one
bid submission before the round id changes; an attempt marks the round
handled; the step ignores the deploy result (success or failure alike);
and a fresh round observed already inside the snipe window with a healthy
balance attempts a bid in that same iteration. -/
theorem claim_C8_single_attempt (cfg : Config) (r : ℕ) (l : List TickInput)
    (h : ∀ inp ∈ l, inp.roundId = r) (s : SchedState) :
    runSched cfg s l ≤ 1
    ∧ (∀ (s0 : SchedState) (inp : TickInput), (schedStep cfg s0 inp).2 = true →
        (schedStep cfg s0 inp).1.hasDeployed = true)
    ∧ (∀ (s0 : SchedState) (inp : TickInput) (b : Bool),
        schedStep cfg s0 { inp with deploySuccess := b } = schedStep cfg s0 inp)
    ∧ (∀ (s0 : SchedState) (inp : TickInput), inp.roundId ≠ s0.lastRoundId →
        inp.lowBalanceUnrecovered = false → 0 < secondsRemaining inp →
        secondsRemaining inp ≤ cfg.snipeWindowSeconds → (schedStep cfg s0 inp).2 = true) :=
  ⟨runSched_le_one cfg r l h s,
   fun s0 inp => schedStep_attempt_handled cfg s0 inp,
   fun s0 inp b => schedStep_ignores_deploySuccess cfg s0 inp b,
   fun s0 inp h1 h2 h3 h4 => schedStep_snipe_attempts cfg s0 inp h1 h2 h3 h4⟩

/-- Witness for claim C8 on a two-tick run of round 1 inside an 8 second
window against a 10 second configuration. -/
theorem claim_C8_single_attempt_witness :
    (∀ inp ∈ [inpC8, inpC8], inp.roundId = 1)
    ∧ runSched cfgC6 initSched [inpC8, inpC8] ≤ 1 :=
  ⟨by decide, (claim_C8_single_attempt cfgC6 1 [inpC8, inpC8] (by decide) initSched).1⟩
